import Mathlib

/-!
Verification of the vscode-gitflow workflow engine against its specification.

The definitions below are a shallow embedding of the TypeScript sources:
`src/git.ts` (reference model and repository state queries), `src/flow.ts`
(the workflow engine), `src/cmd.ts` (process execution: `executeRequired`
raises on a non-zero exit code) and `src/fail.ts` (`fail.error` throws its
argument).  Strings are modelled by Lean `String`/`List Char`; the JavaScript
string operations used by the code (`replace` with a string pattern replaces
the first occurrence only, `trim`, `split`, the `in` operator on arrays) are
reproduced with their JavaScript semantics.
-/

namespace Gitflow

/-- JavaScript `String.prototype.trim` on the character list: drop whitespace
from both ends (ASCII whitespace, which is what the git output contains). -/
def trimL (l : List Char) : List Char :=
  ((l.dropWhile Char.isWhitespace).reverse.dropWhile Char.isWhitespace).reverse

/-- Split a character list at every newline character, JavaScript
`split('\n')` semantics: `n` separators produce `n+1` fields. -/
def splitOnNl : List Char → List (List Char)
  | [] => [[]]
  | c :: rest =>
    match splitOnNl rest with
    | [] => [[c]]
    | h :: t => if c = '\n' then [] :: h :: t else (c :: h) :: t

/-- Locate the first occurrence of `pat` in a list: returns the part before
the occurrence and the part after it.  With `pat = []` it matches at
position zero, exactly like JavaScript `indexOf`. -/
def findSplit (pat : List Char) : List Char → Option (List Char × List Char)
  | [] => if pat.isEmpty then some ([], []) else none
  | c :: rest =>
    if pat.isPrefixOf (c :: rest) then some ([], (c :: rest).drop pat.length)
    else
      match findSplit pat rest with
      | some (pre, suf) => some (c :: pre, suf)
      | none => none

/-- JavaScript `s.replace(pat, repl)` with a *string* pattern: only the first
occurrence is replaced; if the pattern does not occur the string is
returned unchanged. -/
def replaceFirstWithL (s pat repl : List Char) : List Char :=
  match findSplit pat s with
  | some (pre, suf) => pre ++ repl ++ suf
  | none => s

/-- Decimal digit-string to number, as JavaScript `Number` behaves on an
all-digit string. -/
def strToNatL (l : List Char) : Nat :=
  l.foldl (fun n c => n * 10 + (c.toNat - 48)) 0

def allDigits (l : List Char) : Bool := l.all Char.isDigit

/-- Whether a string is a canonical JavaScript array index (`"0"`, `"1"`, …,
no leading zeros, below 2^32-1).  These are the own keys of a dense array. -/
def isIndexKey (l : List Char) : Bool :=
  match l with
  | [] => false
  | c :: rest =>
    c.isDigit && ((c != '0') || rest.isEmpty) && allDigits rest &&
      strToNatL (c :: rest) < 4294967295

/-- The string keys inherited by every array from `Array.prototype` and
`Object.prototype` (the `in` operator also finds these). -/
def arrayProtoKeys : List String :=
  ["length", "constructor", "concat", "copyWithin", "entries", "every",
   "fill", "filter", "find", "findIndex", "forEach", "includes", "indexOf",
   "join", "keys", "lastIndexOf", "map", "pop", "push", "reduce",
   "reduceRight", "reverse", "shift", "slice", "some", "sort", "splice",
   "toLocaleString", "toString", "unshift", "hasOwnProperty",
   "isPrototypeOf", "propertyIsEnumerable", "valueOf"]

/-- JavaScript `name in acc` where `acc` is an array of length `len`:
true iff `name` is an array index below the length or a property inherited
from the prototypes.  Note that it does *not* test membership of the
array's elements. -/
def jsInArrayKeys (name : String) (len : Nat) : Bool :=
  (isIndexKey name.data && strToNatL name.data < len) || arrayProtoKeys.contains name

/-- The dedup `reduce` of `BranchRef.parseListing` (src/git.ts): pushes
`name` unless `name in acc`. -/
def jsDedup (names : List String) : List String :=
  names.foldl (fun acc name => if jsInArrayKeys name acc.length then acc else acc ++ [name]) []

/-- `line.replace(/^\* /, '')`: strip one leading current-branch marker glyph. -/
def stripStarS (s : String) : String :=
  match s.data with
  | '*' :: ' ' :: rest => ⟨rest⟩
  | _ => s

/-- `BranchRef.parseListing` (src/git.ts): replace the first CRLF by LF, trim,
split into lines, drop empty lines and the literal sentinel `no branch`,
trim each line, strip the marker glyph, then run the dedup reduce. -/
def parseListing (output : String) : List String :=
  let lines := (splitOnNl (trimL (replaceFirstWithL output.data ['\r', '\n'] ['\n']))).map
      (fun l => (⟨l⟩ : String))
  jsDedup ((((lines.filter (fun l => l.length != 0)).filter
      (fun l => l != "no branch")).map (fun l => (⟨trimL l.data⟩ : String))).map stripStarS)

/-- JavaScript `o || d` on a nullable string: the default is taken both when
the value is absent and when it is the empty string. -/
def jsOrS : Option String → String → String
  | none, d => d
  | some s, d => if s = "" then d else s

/-- JavaScript truthiness of a nullable string: false for absent and for
the empty string. -/
def jsTruthyS : Option String → Bool
  | none => false
  | some s => s != ""

/-- The `/^\d+\.\d+\.\d+$/` match of `guess_new_version` fused with the
subsequent `split('.')`: returns the three digit groups exactly when the
regular expression matches. -/
def semverParseL (l : List Char) : Option (List Char × List Char × List Char) :=
  match l.dropWhile Char.isDigit with
  | '.' :: r1 =>
    match r1.dropWhile Char.isDigit with
    | '.' :: r2 =>
      match r2.dropWhile Char.isDigit with
      | [] =>
        if (l.takeWhile Char.isDigit).isEmpty || (r1.takeWhile Char.isDigit).isEmpty ||
            (r2.takeWhile Char.isDigit).isEmpty then none
        else some (l.takeWhile Char.isDigit, r1.takeWhile Char.isDigit,
          r2.takeWhile Char.isDigit)
      | _ => none
    | _ => none
  | _ => none

/-- `version_tag = await tag.latest() || '0.0.0'`: `latest()` yields the empty
string when the repository has no tag. -/
def latestOrDefault (latest : String) : String :=
  if latest = "" then "0.0.0" else latest

/-- `version_tag.replace(tag_prefix, '')` where
`tag_prefix = (await tagPrefix()) || ''` — a first-occurrence substring
removal, not an anchored strip. -/
def strippedTag (latest : String) (tagPfxCfg : Option String) : List Char :=
  replaceFirstWithL (latestOrDefault latest).data (jsOrS tagPfxCfg "").data []

/-- The release bump of `flow.release.guess_new_version`: on a
`major.minor.patch` match, increment `minor` (via `Number`/`String`) and
zero `patch`, keeping the original `major` text; otherwise unchanged. -/
def bumpMinorL (l : List Char) : List Char :=
  match semverParseL l with
  | some (a, b, _) => a ++ '.' :: ((Nat.repr (strToNatL b + 1)).data ++ '.' :: '0' :: [])
  | none => l

/-- The hotfix bump of `flow.hotfix.guess_new_version`: on a match, increment
`patch`, keeping `major` and `minor` as written. -/
def bumpPatchL (l : List Char) : List Char :=
  match semverParseL l with
  | some (a, b, c) => a ++ '.' :: (b ++ '.' :: (Nat.repr (strToNatL c + 1)).data)
  | none => l

/-- `flow.release.guess_new_version` (src flow, release namespace). -/
def guessNewVersionRelease (latest : String) (tagPfxCfg : Option String) : String :=
  ⟨bumpMinorL (strippedTag latest tagPfxCfg)⟩

/-- `flow.hotfix.guess_new_version` (src flow, hotfix namespace). -/
def guessNewVersionHotfix (latest : String) (tagPfxCfg : Option String) : String :=
  ⟨bumpPatchL (strippedTag latest tagPfxCfg)⟩

/-! ## The workflow engine

Each operation is embedded as a function from an environment — the answers
the backend and the operator give to the queries and prompts the code makes —
to a trace of mutating backend actions together with an outcome.  Queries are
read-only and are not recorded; the single-operator assumption of the system
means the environment does not change under the operation's feet. -/

/-- A mutating backend action, one constructor per mutating command the
workflow engine issues. -/
inductive GitAction where
  /-- `git checkout branch` -/
  | checkout (branch : String)
  /-- `git checkout -b name from` -/
  | checkoutNew (name from_ : String)
  /-- `git branch name from` (tracking) or `git branch --no-track name from` -/
  | createBranch (name from_ : String) (track : Bool)
  /-- `git merge --no-ff branch` -/
  | mergeNoFF (branch : String)
  /-- `git tag -m message name target` -/
  | tagCreate (message name target : String)
  /-- `git branch -d name` -/
  | deleteBranch (name : String)
  /-- `git push remote ref` -/
  | push (remote ref : String)
  /-- `git push --tags remote` -/
  | pushTags (remote : String)
  /-- `git rebase onto branch` -/
  | rebaseCmd (onto branch : String)
  /-- `git rebase --abort` -/
  | rebaseAbort
  /-- `git symbolic-ref HEAD refs/heads/branch` -/
  | symbolicRefHead (branch : String)
  /-- `git commit --allow-empty -m 'Initial commit'` -/
  | initialCommit
  /-- `git config key value` -/
  | configSet (key value : String)
  /-- write a file (the recovery marker) -/
  | fsWrite (path contents : String)
  /-- remove a file (the recovery marker) -/
  | fsRemove (path : String)
deriving DecidableEq, Repr

/-- One dispatched backend action; `awaited` records whether the source
`await`s its completion before continuing (almost always true). -/
structure Step where
  act : GitAction
  awaited : Bool
deriving DecidableEq, Repr

/-- How an operation ends: normally, by an operator cancellation (a plain
`return` after a declined prompt), or by a raised `fail.error`/required
command failure carrying a message. -/
inductive Outcome where
  | done
  | cancelled
  | raised (msg : String)
deriving DecidableEq, Repr

structure OpResult where
  trace : List Step
  outcome : Outcome
deriving DecidableEq, Repr

/-- The answers the repository, the configuration and the operator give to
the queries and prompts of one operation. -/
structure Env where
  /-- `gitflow.branch.master` -/
  masterCfg : Option String
  /-- `gitflow.branch.develop` -/
  developCfg : Option String
  /-- `gitflow.prefix.<kind>` -/
  pfxCfg : String → Option String
  /-- `gitflow.prefix.versiontag` -/
  versiontagCfg : Option String
  /-- `git rev-parse --abbrev-ref HEAD`, none when detached -/
  currentBranch : Option String
  /-- `git.isClean()`: the two diff checks both report no changes -/
  clean : Bool
  /-- `BranchRef.all()`: names of local and remote branches -/
  branches : List String
  /-- `branch.ref()`: the revision a name resolves to -/
  refOf : String → String
  /-- `git.isMerged(subject, base)` -/
  merged : String → String → Bool
  /-- `fs.exists(merge_base_file)` -/
  markerExists : Bool
  /-- contents of the merge-base marker file -/
  markerContents : String
  /-- `git rev-parse --quiet --verify HEAD` succeeds (some commit exists) -/
  headExists : Bool
  /-- exit code of `merge --no-ff` in feature/bugfix finish (plain execute) -/
  featureMergeRetc : Nat
  /-- exit code of `git.merge` into master in release/hotfix finish -/
  masterMergeRetc : Nat
  /-- exit code of `git.merge` into develop in release/hotfix finish -/
  developMergeRetc : Nat
  /-- exit code of `git.rebase` -/
  rebaseRetc : Nat
  /-- configuration `gitflow.deleteBranchOnFinish` -/
  deleteBranchOnFinish : Bool
  /-- configuration `gitflow.deleteRemoteBranches` -/
  deleteRemoteBranches : Bool
  /-- re-initialization warning: operator chose 'Yes' -/
  reinitConfirm : Bool
  /-- input box for the production branch name (none = cancelled) -/
  masterInput : Option String
  /-- input box for the development branch name -/
  developInput : Option String
  /-- input boxes for the per-kind branch prefixes -/
  pfxInput : String → Option String
  /-- input box for the version tag prefix -/
  versiontagInput : Option String
  /-- input box for the tag message in release/hotfix finish -/
  tagMessageInput : Option String
  /-- rebase rewrite-history warning: operator chose 'Rebase anyway' -/
  rebaseConfirm : Bool

/-- `flow.gitflowDir`: `path.join(rootPath, '.git', '.gitflow')` with the
workspace root elided. -/
def gitflowDir : String := ".git/.gitflow"

/-- The path the resumption logic of `finish` reads:
`path.join(gitflowDir, 'MERGE_BASE')`. -/
def merge_base_file : String := ".git/.gitflow/MERGE_BASE"

/-- `flow.flowEnabled()`: both main-branch roles set (JS truthiness). -/
def flowEnabled (env : Env) : Bool :=
  jsTruthyS env.masterCfg && jsTruthyS env.developCfg

/-- Message of `flow.requireFlowEnabled`. -/
def notEnabledMsg : String := "Gitflow is not initialized for this project"

/-- Message of `flow.throwNotInitializedError`. -/
def notInitializedMsg : String := "Gitflow has not been initialized for this repository"

/-- Message of `git.requireClean`. -/
def unsavedChangesMsg : String :=
  "Unsaved changes detected. Please commit or stash your changes and try again"

/-- Message of `git.requireEqual` on diverged branches. -/
def divergedMsg (a b : String) : String :=
  "Branch \"" ++ a ++ "\" has diverged from " ++ b

/-- Message raised by `cmd.executeRequired` on a non-zero exit code
(`git.info.path` rendered as `git`). -/
def reqFailMsg (retc : Nat) : String :=
  "\"git\" returned status " ++ Nat.repr retc

/-- `cmd.executeRequired`: a non-zero exit code becomes a raised error, so
callers only ever observe a zero exit code. -/
def execRequired (retc : Nat) : Except String Nat :=
  if retc ≠ 0 then .error (reqFailMsg retc) else .ok retc

/-- `git.requireEqual a b`: raised error iff the two names resolve to
different revisions. -/
def requireEqual (env : Env) (a b : String) : Except String Unit :=
  if env.refOf a ≠ env.refOf b then .error (divergedMsg a b) else .ok ()

/-- The development branch name: `config.get('gitflow.branch.develop')`
turned into a `BranchRef` without a null check (JS renders a missing value
as the string `null`). -/
def developName (env : Env) : String := env.developCfg.getD "null"

/-- The production branch name, same construction. -/
def masterName (env : Env) : String := env.masterCfg.getD "null"

/-- `flow.feature.current(msg, branchType)`: the checked-out branch must
carry the kind's configured non-empty prefix; returns the branch and its
suffix. -/
def featureCurrent (env : Env) (branchType msg : String) : Except String (String × String) :=
  match env.pfxCfg branchType with
  | none => .error notInitializedMsg
  | some p =>
    if p = "" then .error notInitializedMsg
    else
      match env.currentBranch with
      | none => .error msg
      | some cur =>
        if p.data.isPrefixOf cur.data then .ok (cur, ⟨cur.data.drop p.length⟩)
        else .error msg

/-- `flow.feature.finishCleanup`: with deletion enabled, delete the remote
counterpart (when remote deletion is enabled and it exists) by pushing an
empty ref, then delete the local branch. -/
def finishCleanup (env : Env) (branch : String) : List Step :=
  if env.deleteBranchOnFinish then
    (if env.deleteRemoteBranches && env.branches.contains ("origin/" ++ branch) then
      [⟨.push "origin" (":refs/heads/" ++ branch), true⟩]
    else []) ++ [⟨.deleteBranch branch, true⟩]
  else []

/-- The tail of `flow.feature.finish` after the resumption check: require a
clean tree, require the feature and develop branches in sync with their
remotes, check out develop, merge `--no-ff`; a non-zero merge exit writes
the recovery file — at `gitflowDir`, not at `merge_base_file` — and raises;
otherwise clean up. -/
def featureFinishMain (env : Env) (branchType fb : String) (t0 : List Step) : OpResult :=
  if ¬ env.clean then ⟨t0, .raised unsavedChangesMsg⟩
  else
    let remoteFb := "origin/" ++ fb
    if env.branches.contains remoteFb ∧ env.refOf fb ≠ env.refOf remoteFb then
      ⟨t0, .raised (divergedMsg fb remoteFb)⟩
    else
      let dev := developName env
      let remoteDev := "origin/" ++ dev
      if env.branches.contains remoteDev ∧ env.refOf dev ≠ env.refOf remoteDev then
        ⟨t0, .raised (divergedMsg dev remoteDev)⟩
      else
        let t1 := t0 ++ [⟨.checkout dev, true⟩, ⟨.mergeNoFF fb, true⟩]
        if env.featureMergeRetc ≠ 0 then
          ⟨t1 ++ [⟨.fsWrite gitflowDir dev, true⟩],
           .raised ("There were conflicts while merging into " ++ dev ++
             ". Fix the issues before trying to finish the " ++ branchType ++ " branch")⟩
        else ⟨t1 ++ finishCleanup env fb, .done⟩

/-- `flow.feature.finish(branchType)`: resolve the current branch of the
kind; if the recovery marker file exists and the tree is clean, delete the
marker and — when the branch is already merged into the recorded base —
finish through cleanup alone; if the marker exists and the tree is dirty,
raise the merge-conflict message; otherwise run the main merge path. -/
def featureFinish (env : Env) (branchType : String) : OpResult :=
  match featureCurrent env branchType
      ("You must checkout the " ++ branchType ++ " branch you wish to finish") with
  | .error m => ⟨[], .raised m⟩
  | .ok (fb, _) =>
    if env.markerExists then
      if env.clean then
        let t0 : List Step := [⟨.fsRemove merge_base_file, true⟩]
        if env.merged fb env.markerContents then ⟨t0 ++ finishCleanup env fb, .done⟩
        else featureFinishMain env branchType fb t0
      else
        ⟨[], .raised ("You have merge conflicts! Resolve them before trying to finish " ++
          branchType ++ " branch.")⟩
    else featureFinishMain env branchType fb []

/-- `flow.feature.start(name, branchType)`: require flow enabled, a set
prefix and no branch of the composed name; then create and check out the
branch from develop.  The working tree's cleanliness is never queried. -/
def featureStart (env : Env) (feature_name branchType : String) : OpResult :=
  if ¬ flowEnabled env then ⟨[], .raised notEnabledMsg⟩
  else
    match env.pfxCfg branchType with
    | none => ⟨[], .raised notInitializedMsg⟩
    | some p =>
      if p = "" then ⟨[], .raised notInitializedMsg⟩
      else
        let newBranch := p ++ feature_name
        if env.branches.contains newBranch then
          ⟨[], .raised ("The " ++ branchType ++ " \"" ++ feature_name ++ "\" already exists")⟩
        else ⟨[⟨.checkoutNew newBranch (developName env), true⟩], .done⟩

/-- The rebase invocation of `flow.feature.rebase`: run `git.rebase` —
which is `cmd.executeRequired`, so a non-zero exit raises before the
source's own `result.retc` test; that test, and the `rebase --abort` it
would issue, therefore only run when the exit code was zero. -/
def featureRebaseRun (env : Env) (dev fb : String) : OpResult :=
  match execRequired env.rebaseRetc with
  | .error m => ⟨[⟨.rebaseCmd dev fb, true⟩], .raised m⟩
  | .ok retc =>
    if retc ≠ 0 then
      ⟨[⟨.rebaseCmd dev fb, true⟩, ⟨.rebaseAbort, true⟩],
       .raised ("Rebase command failed with exit code " ++ Nat.repr retc ++
         ". The rebase has been aborted: Please perform this rebase from " ++
         "the command line and resolve the appearing errors.")⟩
    else ⟨[⟨.rebaseCmd dev fb, true⟩], .done⟩

/-- `flow.feature.rebase(branchType)`: require flow enabled and a current
branch of the kind; when an unmerged remote counterpart exists, a declined
rewrite-history warning cancels; require a clean tree; then rebase. -/
def featureRebase (env : Env) (branchType : String) : OpResult :=
  if ¬ flowEnabled env then ⟨[], .raised notEnabledMsg⟩
  else
    match featureCurrent env branchType
        ("You must checkout the " ++ branchType ++ " branch you wish to rebase on develop") with
    | .error m => ⟨[], .raised m⟩
    | .ok (fb, _) =>
      if env.branches.contains ("origin/" ++ fb) ∧
          ¬ env.merged ("origin/" ++ fb) (developName env) ∧ ¬ env.rebaseConfirm then
        ⟨[], .cancelled⟩
      else if ¬ env.clean then ⟨[], .raised unsavedChangesMsg⟩
      else featureRebaseRun env (developName env) fb

/-- The cleanup tail of `flow.release.finalizeWithBranch`: with deletion
enabled, delete the subject branch; with remote deletion enabled and both
main remote branches present, push develop, push master, push the tags
(the source does *not* await this command), and delete the remote subject
branch when it exists. -/
def finalizeCleanupSteps (env : Env) (branch master dev : String) : List Step :=
  if env.deleteBranchOnFinish then
    [⟨.deleteBranch branch, true⟩] ++
    (if env.deleteRemoteBranches && env.branches.contains ("origin/" ++ dev) &&
        env.branches.contains ("origin/" ++ master) then
      [⟨.push "origin" dev, true⟩, ⟨.push "origin" master, true⟩,
       ⟨.pushTags "origin", false⟩] ++
      (if env.branches.contains ("origin/" ++ branch) then
        [⟨.push "origin" (":" ++ branch), true⟩]
      else [])
    else [])
  else []

/-- The release tag name: `tag_prefix.concat(branch.name.substr(rel_prefix.length))`
with `tag_prefix = (await tagPrefix()) || ''`. -/
def releaseTagName (env : Env) (relPfx branch : String) : String :=
  jsOrS env.versiontagCfg "" ++ (⟨branch.data.drop relPfx.length⟩ : String)

/-- `finalizeWithBranch` after the merge into master: create the annotated
tag on master, check out develop, merge the subject unless already merged
(`git.merge` is `executeRequired`: a non-zero exit raises), then clean up. -/
def finalizeTagAndDevelop (env : Env) (relPfx branch master dev tm : String)
    (t2 : List Step) : OpResult :=
  let t3 := t2 ++ [⟨.tagCreate tm (releaseTagName env relPfx branch) master, true⟩,
                   ⟨.checkout dev, true⟩]
  if env.merged branch dev then
    ⟨t3 ++ finalizeCleanupSteps env branch master dev, .done⟩
  else
    match execRequired env.developMergeRetc with
    | .error m => ⟨t3 ++ [⟨.mergeNoFF branch, true⟩], .raised m⟩
    | .ok _ =>
      ⟨t3 ++ [⟨.mergeNoFF branch, true⟩] ++ finalizeCleanupSteps env branch master dev, .done⟩

/-- The mutation phase of `finalizeWithBranch` ("the crux of the logic"):
check out master, merge the subject unless already merged (`git.merge` is
`executeRequired`: a non-zero exit raises without touching the recovery
marker), then tag and continue on develop. -/
def finalizeMutate (env : Env) (relPfx branch master dev tm : String) : OpResult :=
  let t1 : List Step := [⟨.checkout master, true⟩]
  if env.merged branch master then finalizeTagAndDevelop env relPfx branch master dev tm t1
  else
    match execRequired env.masterMergeRetc with
    | .error m => ⟨t1 ++ [⟨.mergeNoFF branch, true⟩], .raised m⟩
    | .ok _ => finalizeTagAndDevelop env relPfx branch master dev tm (t1 ++ [⟨.mergeNoFF branch, true⟩])

/-- `flow.release.finalizeWithBranch(rel_prefix, branch, reenter)` — also the
finisher of hotfix branches.  Guards: flow enabled, currently on the subject
branch, clean tree, master and develop in sync with existing remote
counterparts; then the tag-message prompt (cancel ends the operation before
any mutation), then the mutation phase. -/
def finalizeWithBranch (env : Env) (relPfx branch : String) : OpResult :=
  if ¬ flowEnabled env then ⟨[], .raised notEnabledMsg⟩
  else
    match env.currentBranch with
    | none => ⟨[], .raised "Unable to detect a current git branch."⟩
    | some cur =>
      if cur ≠ branch then
        ⟨[], .raised ("You are not currently on the \"" ++ branch ++ "\" branch")⟩
      else if ¬ env.clean then ⟨[], .raised unsavedChangesMsg⟩
      else
        let master := masterName env
        let remoteMaster := "origin/" ++ master
        if env.branches.contains remoteMaster ∧ env.refOf master ≠ env.refOf remoteMaster then
          ⟨[], .raised (divergedMsg master remoteMaster)⟩
        else
          let dev := developName env
          let remoteDev := "origin/" ++ dev
          if env.branches.contains remoteDev ∧ env.refOf dev ≠ env.refOf remoteDev then
            ⟨[], .raised (divergedMsg dev remoteDev)⟩
          else
            match env.tagMessageInput with
            | none => ⟨[], .cancelled⟩
            | some tm => finalizeMutate env relPfx branch master dev tm

/-- `flow.release.finish`: resolve the active release branch (the first
listed branch carrying the release prefix) and finalize it. -/
def releaseFinish (env : Env) : OpResult :=
  if ¬ flowEnabled env then ⟨[], .raised notEnabledMsg⟩
  else
    match env.pfxCfg "release" with
    | none => ⟨[], .raised notInitializedMsg⟩
    | some p =>
      if p = "" then ⟨[], .raised notInitializedMsg⟩
      else
        match env.branches.find? (fun br => p.data.isPrefixOf br.data) with
        | none => ⟨[], .raised "No active release branch to finish"⟩
        | some br => finalizeWithBranch env p br

/-- `flow.hotfix.finish`: same shape with the hotfix prefix. -/
def hotfixFinish (env : Env) : OpResult :=
  if ¬ flowEnabled env then ⟨[], .raised notEnabledMsg⟩
  else
    match env.pfxCfg "hotfix" with
    | none => ⟨[], .raised notInitializedMsg⟩
    | some p =>
      if p = "" then ⟨[], .raised notInitializedMsg⟩
      else
        match env.branches.find? (fun br => p.data.isPrefixOf br.data) with
        | none => ⟨[], .raised "No active hotfix branch to finish"⟩
        | some br => finalizeWithBranch env p br

/-- The per-kind prefix prompt loop of `flow.initialize`: each accepted
prefix is stored immediately; a declined or blank prompt ends the operation,
keeping the actions already dispatched. -/
def initPrefixLoop (env : Env) : List String → List Step → Except (List Step) (List Step)
  | [], t => .ok t
  | k :: ks, t =>
    if jsTruthyS (env.pfxInput k) then
      initPrefixLoop env ks
        (t ++ [⟨.configSet ("gitflow.prefix." ++ k) ((env.pfxInput k).getD ""), true⟩])
    else .error t

/-- `flow.initialize`: confirmation when already enabled; production and
development name prompts (cancel or blank aborts with nothing done, equal
names raise); when the repository has no commit, point HEAD at the
production branch and create the initial empty commit; when the development
branch is missing, create it (from its remote counterpart with tracking, or
from production without) and check it out — the source dispatches the two
branch-creation commands without awaiting them; then the per-kind prefix
prompts, the version-tag prefix prompt, and last the two main-branch role
keys, which is what flips `flowEnabled`.  A cancelled version-tag prompt
yields `undefined`, which the source's `=== null` guard does not catch; the
value then reaches the backend argument list, which rejects it, so that
path ends raised with no further actions. -/
def initFlow (env : Env) : OpResult :=
  if flowEnabled env ∧ ¬ env.reinitConfirm then ⟨[], .cancelled⟩
  else if ¬ jsTruthyS env.masterInput then ⟨[], .cancelled⟩
  else
    let master := env.masterInput.getD ""
    if ¬ jsTruthyS env.developInput then ⟨[], .cancelled⟩
    else
      let dev := env.developInput.getD ""
      if master = dev then ⟨[], .raised "Production and development branches must differ"⟩
      else
        let t1 : List Step :=
          if ¬ env.headExists then [⟨.symbolicRefHead master, true⟩, ⟨.initialCommit, true⟩]
          else []
        let t2 := t1 ++
          (if ¬ env.branches.contains dev then
            (if env.branches.contains ("origin/" ++ dev) then
              [⟨.createBranch dev ("origin/" ++ dev) true, false⟩]
            else [⟨.createBranch dev master false, false⟩]) ++ [⟨.checkout dev, true⟩]
          else [])
        match initPrefixLoop env ["bugfix", "feature", "release", "hotfix", "support"] t2 with
        | .error t => ⟨t, .cancelled⟩
        | .ok t3 =>
          match env.versiontagInput with
          | none => ⟨t3, .raised "TypeError"⟩
          | some vt =>
            ⟨t3 ++ [⟨.configSet "gitflow.prefix.versiontag" vt, true⟩,
                    ⟨.configSet "gitflow.branch.master" master, true⟩,
                    ⟨.configSet "gitflow.branch.develop" dev, true⟩], .done⟩

/-! ## Concrete environments used by witnesses and counterexamples -/

/-- A small healthy repository: flow enabled with the default roles and
prefixes, a clean tree, `feature/x` checked out, no remotes, no recovery
marker, all backend commands succeeding, deletion policies on. -/
def envBase : Env where
  masterCfg := some "master"
  developCfg := some "develop"
  pfxCfg := fun k =>
    if k = "feature" then some "feature/"
    else if k = "bugfix" then some "bugfix/"
    else if k = "release" then some "release/"
    else if k = "hotfix" then some "hotfix/"
    else none
  versiontagCfg := some "v"
  currentBranch := some "feature/x"
  clean := true
  branches := ["master", "develop", "feature/x"]
  refOf := fun _ => "r0"
  merged := fun _ _ => false
  markerExists := false
  markerContents := ""
  headExists := true
  featureMergeRetc := 0
  masterMergeRetc := 0
  developMergeRetc := 0
  rebaseRetc := 0
  deleteBranchOnFinish := true
  deleteRemoteBranches := true
  reinitConfirm := false
  masterInput := some "master"
  developInput := some "develop"
  pfxInput := fun _ => none
  versiontagInput := some "v"
  tagMessageInput := some "msg"
  rebaseConfirm := true

/-- `envBase` with a conflicting feature merge. -/
def envFeatConflict : Env := { envBase with featureMergeRetc := 1 }

/-- A release branch checked out and a conflicting merge into master. -/
def envRelConflict : Env :=
  { envBase with currentBranch := some "release/1.2.3", masterMergeRetc := 1 }

/-- A release branch checked out with all remote branches present, for a
full finish run. -/
def envRelFull : Env :=
  { envBase with
    currentBranch := some "release/1.2.3",
    branches := ["master", "develop", "release/1.2.3", "origin/master",
                 "origin/develop", "origin/release/1.2.3"] }

/-- A recovery marker naming develop, with `feature/x` already merged there. -/
def envResume : Env :=
  { envBase with
    markerExists := true, markerContents := "develop",
    merged := fun a b => a == "feature/x" && b == "develop" }

/-- A failing rebase. -/
def envRebaseFail : Env := { envBase with rebaseRetc := 1 }

/-- An uninitialized repository without commits, with the operator
cancelling the first branch-prefix prompt. -/
def envInitCancel : Env :=
  { envBase with masterCfg := none, headExists := false, branches := [] }

/-- A blanked production-name prompt during initialize. -/
def envInitNoMaster : Env := { envBase with masterInput := none }

/-- A release finish whose tag-message prompt is cancelled. -/
def envRelNoMsg : Env :=
  { envBase with tagMessageInput := none, currentBranch := some "release/1.0" }

/-- A rebase with an unmerged remote counterpart and a declined warning. -/
def envRebaseDecline : Env :=
  { envBase with rebaseConfirm := false,
                 branches := ["master", "develop", "feature/x", "origin/feature/x"] }

/-- True of a step that writes the file the resumption logic reads. -/
def writesMarkerFile (s : Step) : Bool :=
  match s.act with
  | .fsWrite p _ => p == merge_base_file
  | _ => false

/-- True of any file write. -/
def writesAnyFile (s : Step) : Bool :=
  match s.act with
  | .fsWrite _ _ => true
  | _ => false

/-- True of a merge command. -/
def isMergeStep (s : Step) : Bool :=
  match s.act with
  | .mergeNoFF _ => true
  | _ => false

/-- True of a rebase abort. -/
def isRebaseAbortStep (s : Step) : Bool :=
  match s.act with
  | .rebaseAbort => true
  | _ => false

/-- True of a tag creation. -/
def isTagStep (s : Step) : Bool :=
  match s.act with
  | .tagCreate _ _ _ => true
  | _ => false

/-- The spec's sequencing discipline: every dispatched action except
possibly the last is awaited before the next one starts. -/
def strictlySequenced (t : List Step) : Prop :=
  ∀ s ∈ t.dropLast, s.awaited = true

/-! ## Claims -/

/-- **C1** (code_bug).  The claim says a failed finish-merge writes the
Recovery Marker at the `MERGE_BASE` file under the gitflow directory, for
feature/bugfix finish and for release/hotfix finish alike.  The code does
neither: the feature/bugfix conflict path calls
`fs.writeFile(gitflowDir, develop.name)` — the gitflow *directory* path,
not the `MERGE_BASE` file that the same function's resumption logic reads —
and the release/hotfix path merges through `executeRequired`, which raises
on conflict before any marker write.  This theorem evaluates both paths at
failing inputs: the feature finish writes only at `gitflowDir` (a path
different from `merge_base_file`), and the release finish raises the raw
command failure with no file write at all. -/
theorem c1_recovery_marker_code_bug :
    featureFinish envFeatConflict "feature" =
      ⟨[⟨.checkout "develop", true⟩, ⟨.mergeNoFF "feature/x", true⟩,
        ⟨.fsWrite gitflowDir "develop", true⟩],
       .raised ("There were conflicts while merging into develop. " ++
         "Fix the issues before trying to finish the feature branch")⟩ ∧
    gitflowDir ≠ merge_base_file ∧
    (featureFinish envFeatConflict "feature").trace.filter writesMarkerFile = [] ∧
    finalizeWithBranch envRelConflict "release/" "release/1.2.3" =
      ⟨[⟨.checkout "master", true⟩, ⟨.mergeNoFF "release/1.2.3", true⟩],
       .raised (reqFailMsg 1)⟩ ∧
    (finalizeWithBranch envRelConflict "release/" "release/1.2.3").trace.filter
      writesAnyFile = [] := by
  decide

/-- **C3** (code_bug).  The claim says `parseListing` never returns two
entries with the same name.  The dedup `reduce` tests `name in acc`, and
the JavaScript `in` operator on an array tests keys (indices and prototype
properties), not elements, so ordinary duplicated branch names are all
kept: the two-line listing `a\na` parses to two entries named `a`. -/
theorem c3_parse_listing_dedup_code_bug :
    parseListing "a\na" = ["a", "a"] ∧
    ¬ (parseListing "a\na").Nodup ∧
    parseListing "  develop\n* develop" = ["develop", "develop"] := by
  decide

/-- **C8 counterexample**.  The claim says a declined or blank prompt ends
any operation before any mutating backend action has run (the only
exception being past an applied merge), and in particular that cancelling
any prompt during initialize leaves the repository unchanged.  But
initialize prompts for the branch-kind prefixes only after mutating the
repository: on an empty repository with the operator cancelling the first
prefix prompt, the run ends as a cancellation with the initial commit
created, the develop branch created and checked out — and no merge was
ever applied. -/
theorem c8_cancellation_counterexample :
    initFlow envInitCancel =
      ⟨[⟨.symbolicRefHead "master", true⟩, ⟨.initialCommit, true⟩,
        ⟨.createBranch "develop" "master" false, false⟩, ⟨.checkout "develop", true⟩],
       .cancelled⟩ ∧
    (initFlow envInitCancel).trace ≠ [] ∧
    (initFlow envInitCancel).trace.filter isMergeStep = [] := by
  decide

/-- **C7 counterexample**.  The claim says no mutating action is started
before the previous one completes.  In a full release finish the source
dispatches `git push --tags` without awaiting it, so the remote
branch deletion that follows can start before the tag push completes: the
run below contains an unawaited step that is not the last one. -/
theorem c7_ordering_counterexample :
    (finalizeWithBranch envRelFull "release/" "release/1.2.3").trace =
      [⟨.checkout "master", true⟩, ⟨.mergeNoFF "release/1.2.3", true⟩,
       ⟨.tagCreate "msg" "v1.2.3" "master", true⟩, ⟨.checkout "develop", true⟩,
       ⟨.mergeNoFF "release/1.2.3", true⟩, ⟨.deleteBranch "release/1.2.3", true⟩,
       ⟨.push "origin" "develop", true⟩, ⟨.push "origin" "master", true⟩,
       ⟨.pushTags "origin", false⟩, ⟨.push "origin" ":release/1.2.3", true⟩] ∧
    ¬ strictlySequenced (finalizeWithBranch envRelFull "release/" "release/1.2.3").trace := by
  constructor
  · decide
  · intro h
    have := h ⟨.pushTags "origin", false⟩ (by decide)
    simp at this

/-- `cmd.executeRequired` raises on every non-zero exit code, so a caller
inspecting its result only ever sees a zero code. -/
theorem execRequired_ok {n m : Nat} (h : execRequired n = .ok m) : m = 0 := by
  unfold execRequired at h
  split at h
  · exact absurd h (by simp)
  · next hn =>
    injection h with h
    omega

/-- **C4** (code_bug).  The claim says a failed rebase is aborted
(`rebase --abort`) before the failure is reported.  But `git.rebase` is
`cmd.executeRequired`, which raises on a non-zero exit code, so the
source's own `result.retc` test — and the abort it would issue — only runs
when the exit code was zero: a failing rebase ends with the raw command
failure and no abort ever appears in any run's trace, leaving the
repository mid-rebase. -/
theorem c4_rebase_abort_dead_code_bug :
    featureRebase envRebaseFail "feature" =
      ⟨[⟨.rebaseCmd "develop" "feature/x", true⟩], .raised (reqFailMsg 1)⟩ ∧
    ∀ env branchType, (featureRebase env branchType).trace.filter isRebaseAbortStep = [] := by
  refine ⟨by decide, ?_⟩
  have hrun : ∀ env dev fb, (featureRebaseRun env dev fb).trace.filter isRebaseAbortStep = [] := by
    intro env dev fb
    unfold featureRebaseRun
    split
    · rfl
    · next retc heq =>
      have hz := execRequired_ok heq
      split
      · next hne => exact absurd hz hne
      · rfl
  intro env branchType
  unfold featureRebase
  repeat' split
  any_goals rfl
  all_goals apply hrun

/-- The cleanup step issues no merge command. -/
theorem finishCleanup_no_merge (env : Env) (b : String) :
    (finishCleanup env b).filter isMergeStep = [] := by
  unfold finishCleanup
  repeat' split
  all_goals rfl

/-- **C2** (confirmed).  With the recovery marker present: on a clean tree
with the subject branch already merged into the branch the marker names,
finish deletes the marker and completes through cleanup alone, issuing no
merge command; on a dirty tree it raises the merge-conflict message with an
empty trace (no repository mutation). -/
theorem c2_finish_resumption (env : Env) (branchType p fb : String)
    (hp : env.pfxCfg branchType = some p) (hpne : p ≠ "")
    (hcur : env.currentBranch = some fb) (hpre : p.data.isPrefixOf fb.data = true)
    (hmk : env.markerExists = true) :
    (env.clean = true → env.merged fb env.markerContents = true →
      featureFinish env branchType =
        ⟨⟨.fsRemove merge_base_file, true⟩ :: finishCleanup env fb, .done⟩ ∧
      (featureFinish env branchType).trace.filter isMergeStep = []) ∧
    (env.clean = false →
      featureFinish env branchType =
        ⟨[], .raised ("You have merge conflicts! Resolve them before trying to finish " ++
          branchType ++ " branch.")⟩) := by
  have hcur' : featureCurrent env branchType
      ("You must checkout the " ++ branchType ++ " branch you wish to finish") =
      .ok (fb, ⟨fb.data.drop p.length⟩) := by
    unfold featureCurrent
    rw [hp, hcur]
    simp [hpne, hpre]
  constructor
  · intro hc hm
    have heq : featureFinish env branchType =
        ⟨⟨.fsRemove merge_base_file, true⟩ :: finishCleanup env fb, .done⟩ := by
      unfold featureFinish
      rw [hcur']
      simp [hmk, hc, hm]
    refine ⟨heq, ?_⟩
    rw [heq]
    simpa [isMergeStep] using finishCleanup_no_merge env fb
  · intro hc
    unfold featureFinish
    rw [hcur']
    simp [hmk, hc]

/-- Witness for C2 at a concrete repository: marker naming develop,
`feature/x` merged there; and the dirty variant. -/
theorem c2_finish_resumption_witness :
    featureFinish envResume "feature" =
      ⟨[⟨.fsRemove merge_base_file, true⟩, ⟨.deleteBranch "feature/x", true⟩], .done⟩ ∧
    featureFinish { envResume with clean := false } "feature" =
      ⟨[], .raised
        "You have merge conflicts! Resolve them before trying to finish feature branch."⟩ := by
  constructor
  · have h := (c2_finish_resumption envResume "feature" "feature/" "feature/x"
      rfl (by decide) rfl (by decide) rfl).1 rfl (by decide)
    exact h.1.trans (by decide)
  · have h := (c2_finish_resumption { envResume with clean := false } "feature" "feature/"
      "feature/x" rfl (by decide) rfl (by decide) rfl).2 rfl
    exact h.trans (by decide)

/-- **C10** (confirmed).  Feature/bugfix start never consults working-tree
cleanliness: with flow enabled, a set non-empty prefix and no branch of the
composed name, it creates and checks out the branch from develop; the
result is invariant under the cleanliness flag; and every non-successful
outcome stems from flow disabled, an unset/empty prefix, or an existing
branch of the proposed name. -/
theorem c10_feature_start_no_clean_check :
    (∀ env name branchType p, flowEnabled env = true → env.pfxCfg branchType = some p →
      p ≠ "" → env.branches.contains (p ++ name) = false →
      featureStart env name branchType =
        ⟨[⟨.checkoutNew (p ++ name) (developName env), true⟩], .done⟩) ∧
    (∀ env name branchType b,
      featureStart { env with clean := b } name branchType =
        featureStart env name branchType) ∧
    (∀ env name branchType, (featureStart env name branchType).outcome ≠ .done →
      flowEnabled env = false ∨ jsTruthyS (env.pfxCfg branchType) = false ∨
        env.branches.contains ((env.pfxCfg branchType).getD "" ++ name) = true) := by
  refine ⟨?_, ?_, ?_⟩
  · intro env name branchType p hen hp hpne hnb
    have hnb' : p ++ name ∉ env.branches := by simpa using hnb
    simp only [featureStart]
    rw [hp]
    simp [hen, hpne, hnb']
  · intro env name branchType b
    rfl
  · intro env name branchType h
    by_cases hen : flowEnabled env = true
    · cases hp : env.pfxCfg branchType with
      | none => simp [jsTruthyS, hp]
      | some p =>
        by_cases hpe : p = ""
        · subst hpe
          simp [jsTruthyS, hp]
        · by_cases hc : env.branches.contains (p ++ name) = true
          · right; right
            simp only [hp, Option.getD_some]
            exact hc
          · exfalso
            apply h
            have hc' : p ++ name ∉ env.branches := by simpa using hc
            simp only [featureStart]
            rw [hp]
            simp [hen, hpe, hc']
    · left
      simpa using hen

/-- Witness for C10: starting `login` on the base repository (whose tree
may or may not be clean) creates and checks out `feature/login` from
develop. -/
theorem c10_feature_start_witness :
    featureStart envBase "login" "feature" =
      ⟨[⟨.checkoutNew "feature/login" "develop", true⟩], .done⟩ := by
  have h := c10_feature_start_no_clean_check.1 envBase "login" "feature" "feature/"
    (by decide) rfl (by decide) (by decide)
  exact h.trans (by decide)

theorem String.mk_data (s : String) : (⟨s.data⟩ : String) = s := rfl

theorem string_data_append (a b : String) : (a ++ b).data = a.data ++ b.data := rfl

/-- Dropping the length of an appended first component recovers the second. -/
theorem drop_appended (p rest : String) : (p ++ rest).data.drop p.length = rest.data := by
  rw [string_data_append]
  exact List.drop_left p.data rest.data

/-- The cleanup tail of a release/hotfix finish creates no tag. -/
theorem finalizeCleanupSteps_tag_filter (env : Env) (branch master dev : String) :
    (finalizeCleanupSteps env branch master dev).filter isTagStep = [] := by
  unfold finalizeCleanupSteps
  repeat' split
  all_goals rfl

/-- The develop phase of a release/hotfix finish contributes exactly one
tag creation beyond its accumulated prefix: the annotated tag with the
computed release name, on master, with the prompted message. -/
theorem finalizeTagAndDevelop_tag_filter (env : Env) (relPfx branch master dev tm : String)
    (t2 : List Step) :
    (finalizeTagAndDevelop env relPfx branch master dev tm t2).trace.filter isTagStep =
      t2.filter isTagStep ++
        [⟨.tagCreate tm (releaseTagName env relPfx branch) master, true⟩] := by
  simp only [finalizeTagAndDevelop]
  repeat' split
  all_goals simp [List.filter_append, finalizeCleanupSteps_tag_filter, isTagStep]

/-- The tag creations of the whole mutation phase: exactly the one computed
tag, or none at all when the merge into master fails first. -/
theorem finalizeMutate_tag_filter (env : Env) (relPfx branch master dev tm : String) :
    (finalizeMutate env relPfx branch master dev tm).trace.filter isTagStep =
      [⟨.tagCreate tm (releaseTagName env relPfx branch) master, true⟩] ∨
    (finalizeMutate env relPfx branch master dev tm).trace.filter isTagStep = [] := by
  simp only [finalizeMutate]
  repeat' split
  all_goals first
  | (left
     rw [finalizeTagAndDevelop_tag_filter]
     simp [isTagStep])
  | (right
     simp [isTagStep])

/-- **C5** (confirmed).  In every release/hotfix finish of a branch named
`relPfx ++ rest`, any tag-creation step in the trace is the annotated tag
named `tagPrefix ++ rest` (kind-prefix stripped, version-tag prefix
prepended), created on the production branch and carrying the
operator-supplied message. -/
theorem c5_release_tag (env : Env) (relPfx rest : String) (s : Step)
    (hs : s ∈ (finalizeWithBranch env relPfx (relPfx ++ rest)).trace)
    (ht : isTagStep s = true) :
    s = ⟨.tagCreate (env.tagMessageInput.getD "")
          (jsOrS env.versiontagCfg "" ++ rest) (masterName env), true⟩ := by
  simp only [finalizeWithBranch] at hs
  repeat' split at hs
  all_goals try exact (List.not_mem_nil s hs).elim
  next tm heq =>
    have hm : s ∈ (finalizeMutate env relPfx (relPfx ++ rest) (masterName env)
        (developName env) tm).trace.filter isTagStep := List.mem_filter.2 ⟨hs, ht⟩
    rcases finalizeMutate_tag_filter env relPfx (relPfx ++ rest) (masterName env)
        (developName env) tm with h | h
    · rw [h] at hm
      simp at hm
      rw [hm, heq]
      simp only [Option.getD_some]
      congr 2
      unfold releaseTagName
      rw [drop_appended, String.mk_data]
    · rw [h] at hm
      cases hm

/-- The unawaited steps of a trace. -/
def unawaitedOf (t : List Step) : List Step :=
  t.filter (fun s => !s.awaited)

/-- The cleanup tail's actions, in source order, form a subsequence of the
claim's canonical order: delete the branch, push develop, push master, push
the tags, delete the remote branch. -/
theorem finalizeCleanupSteps_sublist (env : Env) (branch master dev : String) :
    List.Sublist ((finalizeCleanupSteps env branch master dev).map Step.act)
      [.deleteBranch branch, .push "origin" dev, .push "origin" master,
       .pushTags "origin", .push "origin" (":" ++ branch)] := by
  unfold finalizeCleanupSteps
  repeat' split
  · exact List.Sublist.refl _
  · exact List.sublist_append_left _ _
  · exact (List.nil_sublist _).cons₂ _
  · exact List.nil_sublist _

/-- The develop phase keeps the canonical order: its actions are the
accumulated prefix followed by tag, checkout, optional merge and the
cleanup tail, a subsequence of the canonical tail. -/
theorem finalizeTagAndDevelop_sublist (env : Env) (relPfx branch master dev tm : String)
    (t2 : List Step) (tc : List GitAction)
    (h : List.Sublist (t2.map Step.act) tc) :
    List.Sublist ((finalizeTagAndDevelop env relPfx branch master dev tm t2).trace.map Step.act)
      (tc ++ [.tagCreate tm (releaseTagName env relPfx branch) master,
              .checkout dev, .mergeNoFF branch, .deleteBranch branch,
              .push "origin" dev, .push "origin" master, .pushTags "origin",
              .push "origin" (":" ++ branch)]) := by
  have hcl := finalizeCleanupSteps_sublist env branch master dev
  simp only [finalizeTagAndDevelop]
  repeat' split
  · have h2 : List.Sublist
        ((([⟨.tagCreate tm (releaseTagName env relPfx branch) master, true⟩,
            ⟨.checkout dev, true⟩] : List Step) ++
          finalizeCleanupSteps env branch master dev).map Step.act)
        ([.tagCreate tm (releaseTagName env relPfx branch) master, .checkout dev] ++
          [.mergeNoFF branch] ++
          [.deleteBranch branch, .push "origin" dev, .push "origin" master,
           .pushTags "origin", .push "origin" (":" ++ branch)]) := by
      rw [List.map_append]
      exact List.Sublist.append (List.sublist_append_left _ _) hcl
    have := List.Sublist.append h h2
    simpa [List.append_assoc] using this
  · have h2 : List.Sublist
        ((([⟨.tagCreate tm (releaseTagName env relPfx branch) master, true⟩,
            ⟨.checkout dev, true⟩] : List Step) ++
          ([⟨.mergeNoFF branch, true⟩] : List Step)).map Step.act)
        ([.tagCreate tm (releaseTagName env relPfx branch) master, .checkout dev,
          .mergeNoFF branch] ++
          [.deleteBranch branch, .push "origin" dev, .push "origin" master,
           .pushTags "origin", .push "origin" (":" ++ branch)]) := by
      rw [List.map_append]
      exact List.sublist_append_left _ _
    have := List.Sublist.append h h2
    simpa [List.append_assoc] using this
  · have h2 : List.Sublist
        ((([⟨.tagCreate tm (releaseTagName env relPfx branch) master, true⟩,
            ⟨.checkout dev, true⟩] : List Step) ++
          ([⟨.mergeNoFF branch, true⟩] : List Step) ++
          finalizeCleanupSteps env branch master dev).map Step.act)
        ([.tagCreate tm (releaseTagName env relPfx branch) master, .checkout dev,
          .mergeNoFF branch] ++
          [.deleteBranch branch, .push "origin" dev, .push "origin" master,
           .pushTags "origin", .push "origin" (":" ++ branch)]) := by
      rw [List.map_append, List.map_append]
      exact List.Sublist.append (List.Sublist.refl _) hcl
    have := List.Sublist.append h h2
    simpa [List.append_assoc] using this

/-- **C7 amended** (corrected).  In the mutation phase of every release or
hotfix finish the dispatched mutating actions respect the documented order
— checkout master, merge the subject unless merged, tag, checkout develop,
merge unless merged, delete the branch, push develop, push master, push
the tags, delete the remote branch — as a subsequence with nothing
reordered; but the tag push is the one step the source dispatches without
awaiting it, so the subsequent remote branch deletion may start before the
tag push has completed (the claim's completion-before-next-start guarantee
fails there, see the counterexample). -/
theorem c7_ordering_amended (env : Env) (relPfx branch master dev tm : String) :
    List.Sublist ((finalizeMutate env relPfx branch master dev tm).trace.map Step.act)
      [.checkout master, .mergeNoFF branch,
       .tagCreate tm (releaseTagName env relPfx branch) master,
       .checkout dev, .mergeNoFF branch, .deleteBranch branch,
       .push "origin" dev, .push "origin" master, .pushTags "origin",
       .push "origin" (":" ++ branch)] ∧
    ∀ s ∈ (finalizeMutate env relPfx branch master dev tm).trace,
      s.awaited = false → s.act = .pushTags "origin" := by
  constructor
  · simp only [finalizeMutate]
    repeat' split
    · have h : List.Sublist ([(⟨.checkout master, true⟩ : Step)].map Step.act)
          [.checkout master, .mergeNoFF branch] := (List.nil_sublist _).cons₂ _
      have := finalizeTagAndDevelop_sublist env relPfx branch master dev tm _ _ h
      simpa using this
    · exact List.sublist_append_left _ _
    · have h : List.Sublist
          (([(⟨.checkout master, true⟩ : Step), ⟨.mergeNoFF branch, true⟩]).map Step.act)
          [.checkout master, .mergeNoFF branch] := List.Sublist.refl _
      have := finalizeTagAndDevelop_sublist env relPfx branch master dev tm _ _ h
      simpa using this
  · have hdisj : unawaitedOf (finalizeMutate env relPfx branch master dev tm).trace = [] ∨
        unawaitedOf (finalizeMutate env relPfx branch master dev tm).trace =
          [⟨.pushTags "origin", false⟩] := by
      simp only [finalizeMutate, finalizeTagAndDevelop, finalizeCleanupSteps]
      repeat' split
      all_goals first
      | exact Or.inl rfl
      | exact Or.inr rfl
    intro s hs hb
    have hmem : s ∈ unawaitedOf (finalizeMutate env relPfx branch master dev tm).trace := by
      unfold unawaitedOf
      exact List.mem_filter.2 ⟨hs, by simp [hb]⟩
    rcases hdisj with h | h
    · rw [h] at hmem
      cases hmem
    · rw [h] at hmem
      simp at hmem
      rw [hmem]

/-- Witness for C7 amended at the full release-finish run: the dispatched
actions are a subsequence of the canonical order, and the unawaited step in
the run is the tag push. -/
theorem c7_ordering_amended_witness :
    List.Sublist ((finalizeMutate envRelFull "release/" "release/1.2.3" "master" "develop"
        "msg").trace.map Step.act)
      [.checkout "master", .mergeNoFF "release/1.2.3",
       .tagCreate "msg" (releaseTagName envRelFull "release/" "release/1.2.3") "master",
       .checkout "develop", .mergeNoFF "release/1.2.3", .deleteBranch "release/1.2.3",
       .push "origin" "develop", .push "origin" "master", .pushTags "origin",
       .push "origin" (":" ++ "release/1.2.3")] ∧
    (⟨.pushTags "origin", false⟩ : Step).act = .pushTags "origin" := by
  constructor
  · exact (c7_ordering_amended envRelFull "release/" "release/1.2.3" "master" "develop"
      "msg").1
  · exact (c7_ordering_amended envRelFull "release/" "release/1.2.3" "master" "develop"
      "msg").2 ⟨.pushTags "origin", false⟩ (by decide) (by decide)

/-- `flow.feature.current` succeeds exactly on a checked-out branch carrying
the kind's configured non-empty prefix. -/
theorem featureCurrent_ok (env : Env) (branchType msg p fb : String)
    (hp : env.pfxCfg branchType = some p) (hpne : p ≠ "")
    (hcur : env.currentBranch = some fb) (hpre : p.data.isPrefixOf fb.data = true) :
    featureCurrent env branchType msg = .ok (fb, ⟨fb.data.drop p.length⟩) := by
  unfold featureCurrent
  rw [hp, hcur]
  simp [hpne, hpre]

/-- **C8 amended** (corrected).  Cancellation aborts before any mutating
action in these places: declining the re-initialization confirmation or
blanking the production/development name prompts ends initialize with an
empty trace; cancelling the tag-message prompt of a release/hotfix finish
ends it with an empty trace; declining the rebase rewrite-history warning
ends rebase with an empty trace.  The claim's blanket statement fails for
the prompts initialize issues after its mutations — see the
counterexample. -/
theorem c8_cancellation_amended (env : Env) (relPfx branch branchType p fb : String) :
    (jsTruthyS env.masterInput = false → initFlow env = ⟨[], .cancelled⟩) ∧
    (jsTruthyS env.developInput = false → initFlow env = ⟨[], .cancelled⟩) ∧
    (flowEnabled env = true → env.reinitConfirm = false → initFlow env = ⟨[], .cancelled⟩) ∧
    (env.tagMessageInput = none → (finalizeWithBranch env relPfx branch).trace = []) ∧
    (flowEnabled env = true → env.pfxCfg branchType = some p → p ≠ "" →
      env.currentBranch = some fb → p.data.isPrefixOf fb.data = true →
      env.branches.contains ("origin/" ++ fb) = true →
      env.merged ("origin/" ++ fb) (developName env) = false →
      env.rebaseConfirm = false →
      featureRebase env branchType = ⟨[], .cancelled⟩) := by
  refine ⟨?_, ?_, ?_, ?_, ?_⟩
  · intro h
    simp only [initFlow]
    split
    · rfl
    · simp [h]
  · intro h
    simp only [initFlow]
    split
    · rfl
    · split
      · rfl
      · simp [h]
  · intro h1 h2
    simp only [initFlow]
    rw [if_pos]
    exact ⟨h1, by simp [h2]⟩
  · intro h
    simp only [finalizeWithBranch]
    repeat' split
    any_goals rfl
    next tm heq =>
      rw [h] at heq
      cases heq
  · intro hen hp hpne hcur hpre hrem hnm hrc
    have hcur' := featureCurrent_ok env branchType
      ("You must checkout the " ++ branchType ++ " branch you wish to rebase on develop")
      p fb hp hpne hcur hpre
    have hrem' : "origin/" ++ fb ∈ env.branches := by simpa using hrem
    simp only [featureRebase]
    rw [hcur']
    simp [hen, hrem', hnm, hrc]

/-- Witness for C8 amended: a blanked production-name prompt, a cancelled
tag-message prompt and a declined rebase warning each abort with an empty
trace. -/
theorem c8_cancellation_amended_witness :
    initFlow envInitNoMaster = ⟨[], .cancelled⟩ ∧
    (finalizeWithBranch envRelNoMsg "release/" "release/1.0").trace = [] ∧
    featureRebase envRebaseDecline "feature" = ⟨[], .cancelled⟩ := by
  refine ⟨?_, ?_, ?_⟩
  · exact (c8_cancellation_amended envInitNoMaster "" "" "" "" "").1 rfl
  · exact (c8_cancellation_amended envRelNoMsg "release/" "release/1.0" "" "" "").2.2.2.1 rfl
  · exact (c8_cancellation_amended envRebaseDecline "" "" "feature" "feature/"
      "feature/x").2.2.2.2 (by decide) rfl (by decide) rfl (by decide) (by decide)
      (by decide) rfl

/-- A successful `findSplit` is a genuine decomposition around the
pattern. -/
theorem findSplit_sound (pat : List Char) :
    ∀ s x y, findSplit pat s = some (x, y) → s = x ++ pat ++ y
  | [], x, y, h => by
    unfold findSplit at h
    by_cases hp : pat.isEmpty
    · simp [hp] at h
      obtain ⟨hx, hy⟩ := h
      subst hx
      subst hy
      simp [List.isEmpty_iff.1 hp]
    · simp [hp] at h
  | ch :: rest, x, y, h => by
    unfold findSplit at h
    by_cases hp : pat.isPrefixOf (ch :: rest)
    · simp [hp] at h
      obtain ⟨hx, hy⟩ := h
      subst hx
      subst hy
      obtain ⟨t, ht⟩ := List.isPrefixOf_iff_prefix.1 hp
      rw [List.nil_append, ← ht, List.drop_left]
    · simp [hp] at h
      cases hfs : findSplit pat rest with
      | none =>
        rw [hfs] at h
        cases h
      | some pr =>
        obtain ⟨pre, suf⟩ := pr
        rw [hfs] at h
        simp at h
        obtain ⟨hx, hy⟩ := h
        subst hx
        subst hy
        have ih := findSplit_sound pat rest pre suf hfs
        rw [ih]
        simp

/-- `findSplit` finds the *first* occurrence: its before-part is no longer
than that of any other decomposition. -/
theorem findSplit_min (pat : List Char) :
    ∀ s x y, findSplit pat s = some (x, y) →
      ∀ x' y', s = x' ++ pat ++ y' → x.length ≤ x'.length
  | [], x, y, h => by
    unfold findSplit at h
    by_cases hp : pat.isEmpty
    · simp [hp] at h
      obtain ⟨hx, _⟩ := h
      subst hx
      intro x' y' _
      simp
    · simp [hp] at h
  | ch :: rest, x, y, h => by
    unfold findSplit at h
    by_cases hp : pat.isPrefixOf (ch :: rest)
    · simp [hp] at h
      obtain ⟨hx, _⟩ := h
      subst hx
      intro x' y' _
      simp
    · simp [hp] at h
      cases hfs : findSplit pat rest with
      | none =>
        rw [hfs] at h
        cases h
      | some pr =>
        obtain ⟨pre, suf⟩ := pr
        rw [hfs] at h
        simp at h
        obtain ⟨hx, _⟩ := h
        subst hx
        intro x' y' hdec
        cases x' with
        | nil =>
          exfalso
          apply hp
          rw [List.isPrefixOf_iff_prefix]
          exact ⟨y', by simpa using hdec.symm⟩
        | cons c' x'' =>
          simp at hdec
          obtain ⟨-, hrest⟩ := hdec
          have ih := findSplit_min pat rest pre suf hfs x'' y' (by simpa using hrest)
          simpa using Nat.succ_le_succ ih

/-- When the pattern occurs somewhere, `findSplit` succeeds. -/
theorem findSplit_isSome (pat : List Char) :
    ∀ s, (∃ x0 y0, s = x0 ++ pat ++ y0) → (findSplit pat s).isSome = true := by
  intro s
  induction s with
  | nil =>
    rintro ⟨x0, y0, h⟩
    have hx : pat = [] := by
      exact (List.append_eq_nil.1 (List.append_eq_nil.1 h.symm).1).2
    unfold findSplit
    simp [hx]
  | cons ch rest ih =>
    rintro ⟨x0, y0, h⟩
    unfold findSplit
    by_cases hp : pat.isPrefixOf (ch :: rest)
    · simp [hp]
    · simp [hp]
      cases x0 with
      | nil =>
        exfalso
        apply hp
        rw [List.isPrefixOf_iff_prefix]
        exact ⟨y0, by simpa using h.symm⟩
      | cons c' x0' =>
        simp at h
        obtain ⟨-, hrest⟩ := h
        have := ih ⟨x0', y0, by simpa using hrest⟩
        cases hfs : findSplit pat rest with
        | none =>
          rw [hfs] at this
          cases this
        | some pr =>
          obtain ⟨pre, suf⟩ := pr
          rfl

/-- **C9** (confirmed).  Removing the tag prefix in the version guesser is
a first-occurrence substring replacement, not an anchored strip: whenever
the latest tag contains the (non-empty) prefix string anywhere, the
stripped tag is the tag with exactly its earliest occurrence of the prefix
removed — even when the tag does not start with the prefix. -/
theorem c9_tag_strip_first_occurrence (latest pfxStr : String) (x0 y0 : List Char)
    (hpfx : pfxStr ≠ "") (hlatest : latest ≠ "")
    (hocc : latest.data = x0 ++ pfxStr.data ++ y0) :
    ∃ x y, strippedTag latest (some pfxStr) = x ++ y ∧
      latest.data = x ++ pfxStr.data ++ y ∧
      ∀ x' y', latest.data = x' ++ pfxStr.data ++ y' → x.length ≤ x'.length := by
  have hsome := findSplit_isSome pfxStr.data latest.data ⟨x0, y0, hocc⟩
  cases hfs : findSplit pfxStr.data latest.data with
  | none =>
    rw [hfs] at hsome
    cases hsome
  | some pr =>
    obtain ⟨x, y⟩ := pr
    refine ⟨x, y, ?_, findSplit_sound _ _ _ _ hfs, findSplit_min _ _ _ _ hfs⟩
    unfold strippedTag replaceFirstWithL latestOrDefault
    rw [if_neg hlatest]
    have hjs : jsOrS (some pfxStr) "" = pfxStr := by simp [jsOrS, hpfx]
    rw [hjs, hfs]
    simp

/-- `takeWhile`/`dropWhile` split an all-satisfying block followed by a
non-satisfying element exactly there. -/
theorem takeWhile_append_block (p : Char → Bool) (l : List Char) (d : Char) (r : List Char)
    (hl : ∀ x ∈ l, p x = true) (hd : p d = false) :
    (l ++ d :: r).takeWhile p = l ∧ (l ++ d :: r).dropWhile p = d :: r := by
  induction l with
  | nil => simp [List.takeWhile_cons, List.dropWhile_cons, hd]
  | cons c l ih =>
    have hc : p c = true := hl c (by simp)
    have ih' := ih (fun x hx => hl x (by simp [hx]))
    simp [List.takeWhile_cons, List.dropWhile_cons, hc, ih'.1, ih'.2]

/-- A digit-string decomposition is recognized by the fused
match-and-split. -/
theorem semverParseL_complete (a b c : List Char)
    (ha : a ≠ []) (hb : b ≠ []) (hc : c ≠ [])
    (hda : allDigits a = true) (hdb : allDigits b = true) (hdc : allDigits c = true) :
    semverParseL (a ++ '.' :: (b ++ '.' :: c)) = some (a, b, c) := by
  have hda' : ∀ x ∈ a, Char.isDigit x = true := by
    simpa [allDigits, List.all_eq_true] using hda
  have hdb' : ∀ x ∈ b, Char.isDigit x = true := by
    simpa [allDigits, List.all_eq_true] using hdb
  have hdc' : ∀ x ∈ c, Char.isDigit x = true := by
    simpa [allDigits, List.all_eq_true] using hdc
  have h1 := takeWhile_append_block Char.isDigit a '.' (b ++ '.' :: c) hda' (by decide)
  have h2 := takeWhile_append_block Char.isDigit b '.' c hdb' (by decide)
  have h3t : c.takeWhile Char.isDigit = c := List.takeWhile_eq_self_iff.2 hdc'
  have h3d : c.dropWhile Char.isDigit = [] := List.dropWhile_eq_nil_iff.2 hdc'
  simp only [semverParseL, h1.1, h1.2, h2.1, h2.2, h3t, h3d]
  rw [if_neg]
  simp [List.isEmpty_iff, ha, hb, hc]

/-- A successful fused match-and-split is a digit-string decomposition. -/
theorem semverParseL_sound (l a b c : List Char) (h : semverParseL l = some (a, b, c)) :
    l = a ++ '.' :: (b ++ '.' :: c) ∧ a ≠ [] ∧ b ≠ [] ∧ c ≠ [] ∧
      allDigits a = true ∧ allDigits b = true ∧ allDigits c = true := by
  unfold semverParseL at h
  split at h
  case h_2 => cases h
  next r1 heq1 =>
    split at h
    case h_2 => cases h
    next r2 heq2 =>
      split at h
      case h_2 => cases h
      next heq3 =>
        split at h
        case isTrue => cases h
        case isFalse hne =>
          simp only [Option.some.injEq, Prod.mk.injEq] at h
          obtain ⟨hal, hbl, hcl⟩ := h
          have hdig : ∀ m : List Char, allDigits (m.takeWhile Char.isDigit) = true := by
            intro m
            simp only [allDigits, List.all_eq_true]
            intro x hx
            exact List.mem_takeWhile_imp hx
          have hr2 : r2 = c := by
            have h0 := List.takeWhile_append_dropWhile (p := Char.isDigit) (l := r2)
            rw [heq3, List.append_nil] at h0
            rw [← h0]
            exact hcl
          have hr1 : r1 = b ++ '.' :: c := by
            have h0 := List.takeWhile_append_dropWhile (p := Char.isDigit) (l := r1)
            rw [heq2, hbl, hr2] at h0
            exact h0.symm
          have hl : l = a ++ '.' :: (b ++ '.' :: c) := by
            have h0 := List.takeWhile_append_dropWhile (p := Char.isDigit) (l := l)
            rw [heq1, hal, hr1] at h0
            exact h0.symm
          simp only [Bool.or_eq_true, not_or] at hne
          refine ⟨hl, ?_, ?_, ?_, ?_, ?_, ?_⟩
          · intro hx
            exact hne.1.1 (by simp [hal, hx])
          · intro hx
            exact hne.1.2 (by simp [hbl, hx])
          · intro hx
            exact hne.2 (by simp [hcl, hx])
          · rw [← hal]
            exact hdig l
          · rw [← hbl]
            exact hdig r1
          · rw [← hcl]
            exact hdig r2

/-- **C6** (confirmed).  The version guesser takes the latest tag (or
`0.0.0` when there is none), strips the configured prefix (first
occurrence), and: when the remainder decomposes as three non-empty digit
groups `major.minor.patch`, the release guess keeps `major`, increments
`minor` and zeroes `patch`, and the hotfix guess increments `patch`; when
it does not, both guesses return the stripped remainder unchanged.  In
particular `v1.2.3` with prefix `v` guesses `1.3.0` (release) and `1.2.4`
(hotfix), `v1.2` yields `1.2`, and no tag at all starts from `0.0.0`. -/
theorem c6_version_guesser :
    (∀ latest pfxCfg a b c, a ≠ [] → b ≠ [] → c ≠ [] →
      allDigits a = true → allDigits b = true → allDigits c = true →
      strippedTag latest pfxCfg = a ++ '.' :: (b ++ '.' :: c) →
      guessNewVersionRelease latest pfxCfg =
        ⟨a ++ '.' :: ((Nat.repr (strToNatL b + 1)).data ++ '.' :: '0' :: [])⟩ ∧
      guessNewVersionHotfix latest pfxCfg =
        ⟨a ++ '.' :: (b ++ '.' :: (Nat.repr (strToNatL c + 1)).data)⟩) ∧
    (∀ latest pfxCfg,
      (¬ ∃ a b c, a ≠ [] ∧ b ≠ [] ∧ c ≠ [] ∧ allDigits a = true ∧ allDigits b = true ∧
        allDigits c = true ∧ strippedTag latest pfxCfg = a ++ '.' :: (b ++ '.' :: c)) →
      guessNewVersionRelease latest pfxCfg = ⟨strippedTag latest pfxCfg⟩ ∧
      guessNewVersionHotfix latest pfxCfg = ⟨strippedTag latest pfxCfg⟩) ∧
    guessNewVersionRelease "v1.2.3" (some "v") = "1.3.0" ∧
    guessNewVersionHotfix "v1.2.3" (some "v") = "1.2.4" ∧
    guessNewVersionRelease "v1.2" (some "v") = "1.2" ∧
    guessNewVersionHotfix "v1.2" (some "v") = "1.2" ∧
    guessNewVersionRelease "" (some "v") = "0.1.0" ∧
    guessNewVersionHotfix "" (some "v") = "0.0.1" := by
  refine ⟨?_, ?_, by decide, by decide, by decide, by decide, by decide, by decide⟩
  · intro latest pfxCfg a b c ha hb hc hda hdb hdc hstr
    have hparse := semverParseL_complete a b c ha hb hc hda hdb hdc
    constructor
    · unfold guessNewVersionRelease bumpMinorL
      rw [hstr, hparse]
    · unfold guessNewVersionHotfix bumpPatchL
      rw [hstr, hparse]
  · intro latest pfxCfg hno
    cases hsp : semverParseL (strippedTag latest pfxCfg) with
    | none =>
      constructor
      · unfold guessNewVersionRelease bumpMinorL
        rw [hsp]
      · unfold guessNewVersionHotfix bumpPatchL
        rw [hsp]
    | some tr =>
      obtain ⟨a, b, c⟩ := tr
      exfalso
      obtain ⟨hl, ha, hb, hc, hda, hdb, hdc⟩ :=
        semverParseL_sound (strippedTag latest pfxCfg) a b c hsp
      exact hno ⟨a, b, c, ha, hb, hc, hda, hdb, hdc, hl⟩

/-- Witness for C6's general clauses at a fresh instance: tag `v9.9.9`
with prefix `v`. -/
theorem c6_version_guesser_witness :
    guessNewVersionRelease "v9.9.9" (some "v") = "9.10.0" ∧
    guessNewVersionHotfix "v9.9.9" (some "v") = "9.9.10" := by
  have h := c6_version_guesser.1 "v9.9.9" (some "v") ['9'] ['9'] ['9']
    (by decide) (by decide) (by decide) (by decide) (by decide) (by decide) (by decide)
  exact ⟨h.1.trans (by decide), h.2.trans (by decide)⟩

/-- Witness for C9 at the tag `1.v2.3` with prefix `v`: the occurrence in
the middle is removed, yielding `1.2.3`, which then matches the version
pattern and is bumped. -/
theorem c9_tag_strip_first_occurrence_witness :
    (∃ x y, strippedTag "1.v2.3" (some "v") = x ++ y ∧
      ("1.v2.3" : String).data = x ++ ("v" : String).data ++ y ∧
      ∀ x' y', ("1.v2.3" : String).data = x' ++ ("v" : String).data ++ y' →
        x.length ≤ x'.length) ∧
    guessNewVersionRelease "1.v2.3" (some "v") = "1.3.0" := by
  constructor
  · exact c9_tag_strip_first_occurrence "1.v2.3" "v" ['1', '.'] ['2', '.', '3']
      (by decide) (by decide) (by decide)
  · decide

/-- Witness for C5: the full release finish of `release/1.2.3` with
version-tag prefix `v` and message `msg` tags master as `v1.2.3`. -/
theorem c5_release_tag_witness :
    (⟨.tagCreate "msg" "v1.2.3" "master", true⟩ : Step) =
      ⟨.tagCreate (envRelFull.tagMessageInput.getD "")
        (jsOrS envRelFull.versiontagCfg "" ++ "1.2.3") (masterName envRelFull), true⟩ :=
  c5_release_tag envRelFull "release/" "1.2.3"
    ⟨.tagCreate "msg" "v1.2.3" "master", true⟩ (by decide) (by decide)

end Gitflow
